import Mathlib

/-!
Shallow embedding of the Roles community-moderation extension (`src/main.py`)
and proofs about its vetting state machine, duration parser, per-member lock
garbage collection, incarceration scheduler and message-entropy check.

Modelling conventions:
* timestamps are integer epoch seconds (`Int`);
* Python dicts keyed by ids are association lists `List (Nat × α)` with
  last-write-wins update and `pop`/`del` modelled by filtering the key out;
* the remote directory (the guild) is modelled as synchronously consistent:
  a role add/remove is reflected in the member's role set at once, which is
  the success path of `update_member_roles`'s verification-and-retry loop;
* fallible operations return `Except` or explicit outcome values;
* real-valued computations (`numpy` float64 in the source) are modelled over `ℝ`.
-/

/-! ## Duration parsing (`Roles.parse_duration`) -/

/-- `_UNIT_MAP` of `parse_duration`: seconds per unit, looked up after
`.lower()`; `none` models a `KeyError`. -/
def unitMap (c : Char) : Option Nat :=
  if c = 'd' then some 86400
  else if c = 'h' then some 3600
  else if c = 'm' then some 60
  else none

/-- Characters matched by the `([dhm])` group under `re.IGNORECASE`. -/
def isUnitChar (c : Char) : Bool :=
  c == 'd' || c == 'h' || c == 'm' || c == 'D' || c == 'H' || c == 'M'

/-- One-pass scanner equivalent to `re.finditer(r"(\d+)([dhm])", s, re.IGNORECASE)`
on ASCII input: a maximal digit run immediately followed by a unit letter yields
one non-overlapping token `(value, unitChar)`; every other character is skipped.
`cur` carries the numeric value of the digit run currently being read
(`int(match.group(1))` built up in decimal). -/
def scanTokens : Option Nat → List Char → List (Nat × Char)
  | _, [] => []
  | cur, c :: cs =>
    if c.isDigit then
      scanTokens (some ((cur.getD 0) * 10 + (c.toNat - '0'.toNat))) cs
    else
      match cur with
      | some v =>
        if isUnitChar c then (v, c) :: scanTokens none cs else scanTokens none cs
      | none => scanTokens none cs

/-- All `(\d+)([dhm])` matches of the input. -/
def findTokens (s : List Char) : List (Nat × Char) :=
  scanTokens none s

/-- `sum(int(g1) * _UNIT_MAP[g2.lower()] for match in finditer(...))`; a `none`
result models the `KeyError` making the generator raise mid-sum. -/
def duration_total (s : List Char) : Option Nat :=
  (findTokens s).foldl
    (fun acc t => do
      let a ← acc
      let w ← unitMap t.2.toLower
      pure (a + t.1 * w))
    (some 0)

/-- Total seconds of all scanned tokens, with a failed weight lookup counting 0
(it is proved below that the lookup never fails). -/
def duration_sum (s : List Char) : Nat :=
  ((findTokens s).map (fun t => t.1 * ((unitMap t.2.toLower).getD 0))).sum

/-- Error taxonomy of `parse_duration`: `invalidFormat` is the
`except (AttributeError, KeyError)` branch, `notPositive` the
`except ValueError` branch (`"Incarceration time must be greater than zero."`). -/
inductive DurationError
  | invalidFormat
  | notPositive
deriving DecidableEq

/-- `Roles.parse_duration`: the summed token seconds, failing when the total is
not strictly positive; the `timedelta` result is represented by its seconds. -/
def parse_duration (s : List Char) : Except DurationError Nat :=
  match duration_total s with
  | none => .error .invalidFormat
  | some total => if total ≤ 0 then .error .notPositive else .ok total

/-! ## Per-member lock map garbage collection -/

/-- Observable state of one `member_role_locks` entry: whether the
`asyncio.Lock` is currently held (`lock.locked()`) and its `last_used` stamp. -/
structure LockInfo where
  locked : Bool
  last_used : Int
deriving DecidableEq

/-- The dict comprehension in the `finally` block of `member_lock`: it keeps
exactly the entries whose lock is not held and was last used at most 3600
seconds ago, and drops every other entry. -/
def member_lock_gc (now : Int) (m : List (Nat × LockInfo)) : List (Nat × LockInfo) :=
  m.filter fun p => !p.2.locked && decide (now - p.2.last_used ≤ 3600)

/-- The periodic `cleanup_old_locks` task: removes exactly the entries whose
lock is not held and was last used more than 7 days (604800 seconds) ago. -/
def cleanup_old_locks (now : Int) (m : List (Nat × LockInfo)) : List (Nat × LockInfo) :=
  m.filter fun p => !(!p.2.locked && decide ((604800 : Int) < now - p.2.last_used))

/-! ## Incarceration records (`IncarcerationScheduler`) -/

/-- One value of `self.incarcerated_members`: `release_time` epoch seconds and
the snapshot `original_roles`. -/
structure IncRecord where
  release_time : Int
  original_roles : List Nat
deriving DecidableEq

/-- `self.incarcerated_members.get(mid)`. -/
def lookupRec (recs : List (Nat × IncRecord)) (mid : Nat) : Option IncRecord :=
  (recs.find? (fun p => p.1 == mid)).map (·.2)

/-- `self.incarcerated_members.pop(mid, None)` / `del self.incarcerated_members[mid]`. -/
def eraseRec (recs : List (Nat × IncRecord)) (mid : Nat) : List (Nat × IncRecord) :=
  recs.filter fun p => p.1 != mid

/-- Outcome of `perform_member_release`'s tail: either the record was deleted
and the success message sent, or the `del` raised `KeyError` (record absent),
which `manage_penitentiary_status`'s `except KeyError` turns into a reported
"Invalid penitentiary action" error. -/
inductive ReleaseOutcome
  | success
  | keyErrorReported
deriving DecidableEq

/-- Result of `perform_member_release` on the member's role set, the persisted
record map and the reported outcome. -/
structure ReleaseEffect where
  final_roles : Finset Nat
  records : List (Nat × IncRecord)
  outcome : ReleaseOutcome
deriving DecidableEq

/-- `Roles.perform_member_release`, with the guild's role catalog assumed to
contain every id in `original_roles`: restore the original roles that are
currently absent, drop the incarcerated role if held, then delete the record —
the `del` raising `KeyError` when the record is absent, after the role
mutations already happened and before the save. -/
def perform_member_release (recs : List (Nat × IncRecord)) (member_roles : Finset Nat)
    (incarcerated_id : Nat) (mid : Nat) : ReleaseEffect :=
  let member_data := lookupRec recs mid
  let original_role_ids := (member_data.map (·.original_roles)).getD []
  let roles_to_add := original_role_ids.filter fun r => decide (r ∉ member_roles)
  let roles1 :=
    if incarcerated_id ∈ member_roles then member_roles.erase incarcerated_id
    else member_roles
  let roles2 := roles_to_add.foldl (fun s r => insert r s) roles1
  match member_data with
  | none => { final_roles := roles2, records := recs, outcome := .keyErrorReported }
  | some _ => { final_roles := roles2, records := eraseRec recs mid, outcome := .success }

/-- Outcome of the `fetch_guild`/`fetch_member` pair at the top of
`release_prisoner`: the fetch raised, or returned a member, or returned a
falsy member. -/
inductive FetchOutcome
  | raisesError
  | memberFound
  | memberMissing
deriving DecidableEq

/-- Outcome of the release action (`manage_penitentiary_status` → release). -/
inductive ActOutcome
  | completes
  | raisesError
deriving DecidableEq

/-- `Roles.release_prisoner` as it affects the persisted record map, paired
with whether an error was reported.  A fetch failure logs, reports and returns
early; otherwise the `try/except/finally` around the release pops the record
whatever happens. -/
def release_prisoner (fetch : FetchOutcome) (act : ActOutcome)
    (recs : List (Nat × IncRecord)) (mid : Nat) : List (Nat × IncRecord) × Bool :=
  match fetch with
  | .raisesError => (recs, true)
  | .memberFound => (eraseRec recs mid, decide (act = .raisesError))
  | .memberMissing => (eraseRec recs mid, true)

/-- The past-due half of the periodic `check_incarcerated_members` sweep:
records whose `release_time` has passed are released one by one via
`release_prisoner`, with `env` giving each member's remote behaviour.
(The within-60s half only schedules deferred tasks and is not modelled.) -/
def check_incarcerated_members (now : Int) (env : Nat → FetchOutcome × ActOutcome)
    (recs : List (Nat × IncRecord)) : List (Nat × IncRecord) :=
  (recs.filter fun p => decide (p.2.release_time ≤ now)).foldl
    (fun rs p => (release_prisoner (env p.1).1 (env p.1).2 rs p.1).1) recs

/-! ## Vetting state machine (`ApprovalLedger`) -/

/-- The constants of `Config` that the vetting and penitentiary logic reads. -/
structure Config where
  ELECTORAL_ROLE_ID : Nat := 1200043628899356702
  APPROVED_ROLE_ID : Nat := 1282944839679344721
  TEMPORARY_ROLE_ID : Nat := 1164761892015833129
  INCARCERATED_ROLE_ID : Nat := 1247284720044085370
  REQUIRED_APPROVALS : Nat := 3
  REQUIRED_REJECTIONS : Nat := 3
  REJECTION_WINDOW_DAYS : Nat := 7
deriving DecidableEq

/-- The `Approval` dataclass, with its field defaults. -/
structure Approval where
  approval_count : Nat := 0
  rejection_count : Nat := 0
  reviewers : Finset Nat := ∅
  last_approval_time : Option Int := none
deriving DecidableEq

/-- `self.approval_counts.get(t)`. -/
def lookupThread (m : List (Nat × Approval)) (t : Nat) : Option Approval :=
  (m.find? (fun p => p.1 == t)).map (·.2)

/-- `self.approval_counts[t] = a` (last-write-wins). -/
def setThread (m : List (Nat × Approval)) (t : Nat) (a : Approval) :
    List (Nat × Approval) :=
  (t, a) :: m.filter fun p => p.1 != t

/-- `self.approval_counts.pop(t, None)` (from `cleanup_approval_data`). -/
def removeThread (m : List (Nat × Approval)) (t : Nat) : List (Nat × Approval) :=
  m.filter fun p => p.1 != t

/-- The vetting state touched by one member's review thread(s): the approval
ledger and that member's current role set (the remote directory's copy,
modelled as synchronously consistent). -/
structure VetState where
  approval_counts : List (Nat × Approval) := []
  member_roles : Finset Nat := ∅
deriving DecidableEq

/-- `Roles.get_thread_approvals`: the stored record or a default `Approval()`. -/
def get_thread_approvals (st : VetState) (t : Nat) : Approval :=
  (lookupThread st.approval_counts t).getD {}

/-- Net effect of `Roles.update_member_roles` on the member's role set when the
remote applies the delta and verification succeeds: the role to remove is
dropped (skipped if absent) and the role to add is added (skipped if present). -/
def update_member_roles (roles : Finset Nat) (role_to_add role_to_remove : Nat) :
    Finset Nat :=
  insert role_to_add (roles.erase role_to_remove)

/-- `Roles.is_rejection_window_closed`. -/
def is_rejection_window_closed (cfg : Config) (now : Int) (ta : Approval) : Bool :=
  match ta.last_approval_time with
  | none => false
  | some t0 => decide ((cfg.REJECTION_WINDOW_DAYS : Int) * 86400 < now - t0)

/-- The `Status` enum values used by the vote dispatch table. -/
inductive Status
  | approved
  | rejected
deriving DecidableEq

/-- Return value of a vote-processing call: the error sends and the success
messages of `process_approval` / `process_rejection`, with the record the
notification would render. -/
inductive VoteResult
  | duplicateVote
  | alreadyApproved
  | notApproved
  | windowClosed
  | approvalRegistered (a : Approval)
  | approvedFinal (a : Approval)
  | rejectionRegistered (a : Approval)
  | rejectedFinal (a : Approval)
deriving DecidableEq

/-- `Roles.process_approval`: abort when the member already holds the electoral
role; otherwise build the fresh `Approval(...)` (note the source resets
`rejection_count` to its default 0 here), store it, and at quorum stamp
`last_approval_time = now`, add the electoral role, remove the approved role
and delete the ledger entry (`cleanup_approval_data`): the stored-then-popped
entry nets to a deletion. -/
def process_approval (cfg : Config) (now : Int) (author : Nat) (st : VetState)
    (t : Nat) (current_roles : Finset Nat) (ta : Approval) : VoteResult × VetState :=
  if cfg.ELECTORAL_ROLE_ID ∈ current_roles then (.alreadyApproved, st)
  else
    let ta1 : Approval :=
      { approval_count := min (ta.approval_count + 1) cfg.REQUIRED_APPROVALS
        rejection_count := 0
        reviewers := insert author ta.reviewers
        last_approval_time := ta.last_approval_time }
    if ta1.approval_count = cfg.REQUIRED_APPROVALS then
      (.approvedFinal { ta1 with last_approval_time := some now },
        { approval_counts := removeThread st.approval_counts t
          member_roles :=
            update_member_roles current_roles cfg.ELECTORAL_ROLE_ID cfg.APPROVED_ROLE_ID })
    else
      (.approvalRegistered ta1,
        { st with approval_counts := setThread st.approval_counts t ta1 })

/-- `Roles.process_rejection`: abort when the member does not hold the electoral
role, then when the rejection window has closed; otherwise advance the record
and at quorum add the approved role, remove the electoral role and delete the
ledger entry. -/
def process_rejection (cfg : Config) (now : Int) (author : Nat) (st : VetState)
    (t : Nat) (current_roles : Finset Nat) (ta : Approval) : VoteResult × VetState :=
  if cfg.ELECTORAL_ROLE_ID ∉ current_roles then (.notApproved, st)
  else if ta.last_approval_time.isSome && is_rejection_window_closed cfg now ta then
    (.windowClosed, st)
  else
    let ta1 : Approval :=
      { approval_count := ta.approval_count
        rejection_count := min (ta.rejection_count + 1) cfg.REQUIRED_REJECTIONS
        reviewers := insert author ta.reviewers
        last_approval_time := ta.last_approval_time }
    if ta1.rejection_count = cfg.REQUIRED_REJECTIONS then
      (.rejectedFinal ta1,
        { approval_counts := removeThread st.approval_counts t
          member_roles :=
            update_member_roles current_roles cfg.APPROVED_ROLE_ID cfg.ELECTORAL_ROLE_ID })
    else
      (.rejectionRegistered ta1,
        { st with approval_counts := setThread st.approval_counts t ta1 })

/-- `Roles.process_approval_status_change` after context validation, run under
the member lock: snapshot the roles, read the thread record, reject duplicate
reviewers (`validate_reviewer`), then dispatch on the status. -/
def processVote (cfg : Config) (now : Int) (author : Nat) (st : VetState)
    (t : Nat) (status : Status) : VoteResult × VetState :=
  let current_roles := st.member_roles
  let ta := get_thread_approvals st t
  if author ∈ ta.reviewers then (.duplicateVote, st)
  else
    match status with
    | .approved => process_approval cfg now author st t current_roles ta
    | .rejected => process_rejection cfg now author st t current_roles ta

/-- One reviewer button click. -/
structure Vote where
  now : Int
  author : Nat
  thread : Nat
  status : Status
deriving DecidableEq

/-- A serialized sequence of vote operations (votes on one member's threads are
serialized by the per-member lock). -/
def applyVotes (cfg : Config) (votes : List Vote) (st : VetState) : VetState :=
  votes.foldl (fun s v => (processVote cfg v.now v.author s v.thread v.status).2) st

/-- The ledger invariant of the spec: every stored record's counts are within
the quorum thresholds. -/
def countsBounded (cfg : Config) (st : VetState) : Prop :=
  ∀ p ∈ st.approval_counts,
    p.2.approval_count ≤ cfg.REQUIRED_APPROVALS ∧
    p.2.rejection_count ≤ cfg.REQUIRED_REJECTIONS

/-- Every stored record still has its default `last_approval_time = None`. -/
def noTimestamps (st : VetState) : Prop :=
  ∀ p ∈ st.approval_counts, p.2.last_approval_time = none

/-! ## AnomalyDetector entropy check (`Message._check_entropy`) -/

/-- `Message._is_chinese` from `__post_init__`: any character in the CJK
Unified Ideograph ranges U+4E00–U+9FFF or U+3400–U+4DBF. -/
def is_chinese (msg : List Char) : Bool :=
  msg.any fun c =>
    (decide (0x4E00 ≤ c.toNat) && decide (c.toNat ≤ 0x9FFF)) ||
    (decide (0x3400 ≤ c.toNat) && decide (c.toNat ≤ 0x4DBF))

/-- Base-2 Shannon entropy of the character-frequency distribution:
`-np.sum(probs * np.log2(probs))` with `probs = freqs / length`, the
frequencies ranging over the message's distinct characters (`Counter`). -/
noncomputable def message_entropy (msg : List Char) : ℝ :=
  -((msg.dedup.map fun c =>
      ((msg.count c : ℝ) / (msg.length : ℝ)) *
        Real.logb 2 ((msg.count c : ℝ) / (msg.length : ℝ))).sum)

/-- The flag threshold of `_check_entropy`:
`max(base_threshold, 2.0 - length_adjustment)` with the CJK scalings of the
source. -/
noncomputable def entropy_flag_threshold (min_entropy : ℝ) (msg : List Char) : ℝ :=
  max (min_entropy * (if is_chinese msg then 0.7 else 1.0))
    (2.0 - (Real.logb 2 (max (msg.length : ℝ) 2) / 10) *
      (if is_chinese msg then 0.8 else 1.0))

/-- `Message._check_entropy`: a zero-length message is never flagged, otherwise
the message is flagged exactly when its entropy is below the threshold. -/
def check_entropy (min_entropy : ℝ) (msg : List Char) : Prop :=
  msg.length ≠ 0 ∧ message_entropy msg < entropy_flag_threshold min_entropy msg

/-- A 50-distinct-character message. -/
def msg50 : List Char :=
  "abcdefghijklmnopqrstuvwxyzABCDEFGHIJKLMNOPQRSTUVWX".toList

/-! ## Theorems: duration parsing -/

theorem scanTokens_units (s : List Char) :
    ∀ cur, ∀ t ∈ scanTokens cur s, isUnitChar t.2 = true := by
  induction s with
  | nil => intro cur t ht; simp [scanTokens] at ht
  | cons c cs ih =>
    intro cur t ht
    simp only [scanTokens] at ht
    split at ht
    · exact ih _ t ht
    · split at ht
      · split at ht
        · rcases List.mem_cons.mp ht with h | h
          · subst h; assumption
          · exact ih none t h
        · exact ih none t ht
      · exact ih none t ht

theorem unitChar_lookup {u : Char} (h : isUnitChar u = true) :
    unitMap u.toLower = some ((unitMap u.toLower).getD 0) := by
  simp only [isUnitChar, Bool.or_eq_true, beq_iff_eq] at h
  rcases h with ((((h | h) | h) | h) | h) | h <;> subst h <;> decide

theorem foldl_units (l : List (Nat × Char)) (h : ∀ t ∈ l, isUnitChar t.2 = true) :
    ∀ a : Nat,
      l.foldl
        (fun acc t => do
          let a ← acc
          let w ← unitMap t.2.toLower
          pure (a + t.1 * w))
        (some a)
      = some (a + (l.map fun t => t.1 * ((unitMap t.2.toLower).getD 0)).sum) := by
  induction l with
  | nil => intro a; simp
  | cons p l ih =>
    intro a
    have hp := h p (List.mem_cons_self p l)
    have hl : ∀ t ∈ l, isUnitChar t.2 = true := fun t ht => h t (List.mem_cons_of_mem p ht)
    simp only [List.foldl_cons]
    rw [show ((do
          let a' ← some a
          let w ← unitMap p.2.toLower
          pure (a' + p.1 * w)) : Option Nat)
        = some (a + p.1 * ((unitMap p.2.toLower).getD 0)) by
      rw [unitChar_lookup hp]; rfl]
    rw [ih hl]
    simp [add_assoc]

theorem duration_total_eq (s : List Char) :
    duration_total s = some (duration_sum s) := by
  unfold duration_total duration_sum
  rw [foldl_units (findTokens s) (scanTokens_units s none) 0]
  simp

theorem parse_duration_eq (s : List Char) :
    parse_duration s =
      if duration_sum s = 0 then .error .notPositive else .ok (duration_sum s) := by
  unfold parse_duration
  rw [duration_total_eq]
  simp [Nat.le_zero]

/-- C3: for every input string, `parse_duration` returns the duration whose
seconds are the sum of all `<integer><unit>` token values (units d/h/m,
case-insensitive, weighted 86400/3600/60, tokens repeating and combining)
whenever that sum is positive, and fails with the greater-than-zero
`ValueError` for any string with no valid tokens or a non-positive total. -/
theorem parse_duration_spec :
    (∀ s : List Char, 0 < duration_sum s → parse_duration s = .ok (duration_sum s)) ∧
    (∀ s : List Char, duration_sum s = 0 → parse_duration s = .error .notPositive) ∧
    parse_duration ("1d 2h 30m".toList) = .ok (1 * 86400 + 2 * 3600 + 30 * 60) ∧
    parse_duration ("1D2H30M".toList) = .ok 95400 ∧
    parse_duration ("30m30m".toList) = .ok 3600 := by
  refine ⟨fun s hs => ?_, fun s hs => ?_, by rfl, by rfl, by rfl⟩
  · rw [parse_duration_eq, if_neg (Nat.pos_iff_ne_zero.mp hs)]
  · rw [parse_duration_eq, if_pos hs]

theorem parse_duration_spec_witness :
    0 < duration_sum ("2h".toList) ∧ parse_duration ("2h".toList) = .ok 7200 ∧
    duration_sum ("abc".toList) = 0 ∧
    parse_duration ("abc".toList) = .error .notPositive := by
  refine ⟨by decide, ?_, by rfl, parse_duration_spec.2.1 _ (by rfl)⟩
  have h := parse_duration_spec.1 ("2h".toList) (by decide)
  rwa [show duration_sum ("2h".toList) = 7200 from by rfl] at h

/-- C10: the result of `parse_duration` depends only on the `(\d+)([dhm])`
matches — junk between tokens is ignored, so `"1dxx2h"` parses identically to
`"1d 2h"`; the unit lookup never fails, so the invalid-format branch
(`AttributeError`/`KeyError` handler) is unreachable and every failing input
fails with the greater-than-zero validation error. -/
theorem parse_duration_junk_invariance :
    parse_duration ("1dxx2h".toList) = parse_duration ("1d 2h".toList) ∧
    parse_duration ("1dxx2h".toList) = .ok 93600 ∧
    (∀ s : List Char, duration_total s = some (duration_sum s)) ∧
    (∀ s : List Char,
      parse_duration s =
        if duration_sum s = 0 then .error .notPositive else .ok (duration_sum s)) :=
  ⟨by rfl, by rfl, duration_total_eq, parse_duration_eq⟩

/-! ## Theorems: lock map garbage collection -/

/-- C4: evaluating the sweeps on a lock map holding an idle fresh lock (member
1) and a currently-held lock touched at this very instant (member 2): the
`member_lock` finally-sweep keeps only entries that are unlocked and recent, so
it evicts member 2's held lock from the map, while the periodic
`cleanup_old_locks` task (which removes only unlocked entries older than its
threshold) retains both entries. -/
theorem member_lock_gc_evicts_held :
    member_lock_gc 0 [(1, ⟨false, 0⟩), (2, ⟨true, 0⟩)] = [(1, ⟨false, 0⟩)] ∧
    (2, (⟨true, 0⟩ : LockInfo)) ∉ member_lock_gc 0 [(1, ⟨false, 0⟩), (2, ⟨true, 0⟩)] ∧
    cleanup_old_locks 0 [(1, ⟨false, 0⟩), (2, ⟨true, 0⟩)] =
      [(1, ⟨false, 0⟩), (2, ⟨true, 0⟩)] := by
  refine ⟨by rfl, ?_, by rfl⟩
  decide

/-! ## Theorems: incarceration release -/

/-- C2: evaluating the reconciliation sweep at the failing input — one record
whose deadline (release_time 0) has passed at reconciliation time 10 and whose
guild/member fetch raises: after the sweep the past-due record is still in the
persisted set, because `release_prisoner` returns early from the fetch
`except` before the `finally` that pops the record — the lingering record the
spec explicitly forbids. -/
theorem release_fetch_failure_keeps_record :
    check_incarcerated_members 10 (fun _ => (.raisesError, .completes))
        [(5, ⟨0, []⟩)] = [(5, ⟨0, []⟩)] ∧
    lookupRec
      (check_incarcerated_members 10 (fun _ => (.raisesError, .completes))
        [(5, ⟨0, []⟩)]) 5 = some ⟨0, []⟩ ∧
    (0 : Int) ≤ 10 := by
  refine ⟨by rfl, by rfl, by decide⟩

/-- Characterization of `release_prisoner` over all remote outcomes: the
record is removed whenever the guild/member fetch succeeds — including when it
yields no member and when the release action itself raises (the error is
reported) — while a raising fetch reports the error and returns early with the
record left in place. -/
theorem release_prisoner_removal_spec :
    ∀ (act : ActOutcome) (recs : List (Nat × IncRecord)) (mid : Nat),
      release_prisoner .raisesError act recs mid = (recs, true) ∧
      (release_prisoner .memberFound act recs mid).1 = eraseRec recs mid ∧
      (release_prisoner .memberMissing act recs mid).1 = eraseRec recs mid ∧
      (release_prisoner .memberFound .raisesError recs mid).2 = true ∧
      lookupRec (eraseRec recs mid) mid = none := by
  intro act recs mid
  refine ⟨rfl, rfl, rfl, rfl, ?_⟩
  unfold lookupRec eraseRec
  rw [List.find?_eq_none.mpr]
  · rfl
  · intro p hp
    have := (List.mem_filter.mp hp).2
    simpa [bne_iff_ne] using this

/-- C6: evaluating `perform_member_release` at the failing input — member 7
has no incarceration record but still holds the incarcerated role 9: lacking
the record-absence guard the spec describes, the code removes role 9 from the
member before the record deletion raises `KeyError` (reported upstream by the
action dispatcher's `except KeyError`), so a role mutation does happen; the
persisted set itself stays unchanged. -/
theorem release_no_record_removes_role :
    lookupRec [] 7 = none ∧
    9 ∈ ({9} : Finset Nat) ∧
    9 ∉ (perform_member_release [] {9} 9 7).final_roles ∧
    (perform_member_release [] {9} 9 7).records = [] ∧
    (perform_member_release [] {9} 9 7).outcome = .keyErrorReported := by
  refine ⟨by rfl, by decide, by decide, by rfl, by rfl⟩

/-- Characterization of releasing a member with no incarceration record: the
persisted set is left unchanged and an error is reported, not a success or an
unhandled exception — the record deletion raises `KeyError`, which the action
dispatcher's `except KeyError` reports (as an invalid-action message); no
original role is restored, and the only possible role change is the removal of
a held incarcerated role before the error. -/
theorem release_no_record_spec (recs : List (Nat × IncRecord))
    (member_roles : Finset Nat) (incarcerated_id mid : Nat)
    (h : lookupRec recs mid = none) :
    (perform_member_release recs member_roles incarcerated_id mid).records = recs ∧
    (perform_member_release recs member_roles incarcerated_id mid).outcome =
      .keyErrorReported ∧
    (perform_member_release recs member_roles incarcerated_id mid).final_roles =
      (if incarcerated_id ∈ member_roles then member_roles.erase incarcerated_id
       else member_roles) := by
  unfold perform_member_release
  rw [h]
  exact ⟨rfl, rfl, rfl⟩

theorem release_no_record_spec_witness :
    lookupRec [] 7 = none ∧
    (perform_member_release [] ({4} : Finset Nat) 9 7).records = [] ∧
    (perform_member_release [] ({4} : Finset Nat) 9 7).final_roles = {4} := by
  have h := release_no_record_spec [] ({4} : Finset Nat) 9 7 (by rfl)
  exact ⟨by rfl, h.1, by rw [h.2.2]; decide⟩

/-! ## Theorems: vetting state machine -/

theorem mem_of_lookupThread {m : List (Nat × Approval)} {t : Nat} {a : Approval}
    (h : lookupThread m t = some a) : (t, a) ∈ m := by
  unfold lookupThread at h
  rcases Option.map_eq_some'.mp h with ⟨q, hq, ha⟩
  have hmem := List.mem_of_find?_eq_some hq
  have hpred : q.1 = t := by simpa using List.find?_some hq
  cases q with
  | mk q1 q2 =>
    cases hpred
    cases ha
    exact hmem

theorem lookupThread_removeThread (m : List (Nat × Approval)) (t : Nat) :
    lookupThread (removeThread m t) t = none := by
  unfold lookupThread removeThread
  rw [List.find?_eq_none.mpr]
  · rfl
  · intro p hp
    have := (List.mem_filter.mp hp).2
    simpa [bne_iff_ne] using this

theorem mem_setThread {p : Nat × Approval} {m : List (Nat × Approval)} {t : Nat}
    {a : Approval} (h : p ∈ setThread m t a) : p = (t, a) ∨ p ∈ m := by
  unfold setThread at h
  rcases List.mem_cons.mp h with h | h
  · exact Or.inl h
  · exact Or.inr (List.mem_of_mem_filter h)

theorem get_thread_approvals_bounds {cfg : Config} {st : VetState}
    (h : countsBounded cfg st) (t : Nat) :
    (get_thread_approvals st t).approval_count ≤ cfg.REQUIRED_APPROVALS ∧
    (get_thread_approvals st t).rejection_count ≤ cfg.REQUIRED_REJECTIONS := by
  unfold get_thread_approvals
  cases hl : lookupThread st.approval_counts t with
  | none => exact ⟨Nat.zero_le _, Nat.zero_le _⟩
  | some a => exact h (t, a) (mem_of_lookupThread hl)

theorem get_thread_approvals_time_none {st : VetState} (h : noTimestamps st)
    (t : Nat) : (get_thread_approvals st t).last_approval_time = none := by
  unfold get_thread_approvals
  cases hl : lookupThread st.approval_counts t with
  | none => rfl
  | some a => exact h (t, a) (mem_of_lookupThread hl)

theorem processVote_bounded (cfg : Config) (now : Int) (author : Nat)
    (st : VetState) (t : Nat) (status : Status) (h : countsBounded cfg st) :
    countsBounded cfg (processVote cfg now author st t status).2 := by
  unfold processVote
  dsimp only
  split
  · exact h
  · cases status with
    | approved =>
      show countsBounded cfg (process_approval cfg now author st t _ _).2
      unfold process_approval
      split
      · exact h
      · dsimp only
        split
        · intro p hp
          exact h p (List.mem_of_mem_filter hp)
        · intro p hp
          rcases mem_setThread hp with rfl | hp'
          · exact ⟨min_le_right _ _, Nat.zero_le _⟩
          · exact h p hp'
    | rejected =>
      show countsBounded cfg (process_rejection cfg now author st t _ _).2
      unfold process_rejection
      split
      · exact h
      · split
        · exact h
        · dsimp only
          split
          · intro p hp
            exact h p (List.mem_of_mem_filter hp)
          · intro p hp
            rcases mem_setThread hp with rfl | hp'
            · exact ⟨(get_thread_approvals_bounds h t).1, min_le_right _ _⟩
            · exact h p hp'

theorem applyVotes_bounded (cfg : Config) (votes : List Vote) :
    ∀ st : VetState, countsBounded cfg st →
      countsBounded cfg (applyVotes cfg votes st) := by
  induction votes with
  | nil => intro st h; exact h
  | cons v vs ih =>
    intro st h
    exact ih _ (processVote_bounded cfg v.now v.author st v.thread v.status h)

theorem processVote_noTimestamps (cfg : Config) (now : Int) (author : Nat)
    (st : VetState) (t : Nat) (status : Status) (h : noTimestamps st) :
    noTimestamps (processVote cfg now author st t status).2 := by
  have hta := get_thread_approvals_time_none h t
  unfold processVote
  dsimp only
  split
  · exact h
  · cases status with
    | approved =>
      show noTimestamps (process_approval cfg now author st t _ _).2
      unfold process_approval
      split
      · exact h
      · dsimp only
        split
        · intro p hp
          exact h p (List.mem_of_mem_filter hp)
        · intro p hp
          rcases mem_setThread hp with rfl | hp'
          · exact hta
          · exact h p hp'
    | rejected =>
      show noTimestamps (process_rejection cfg now author st t _ _).2
      unfold process_rejection
      split
      · exact h
      · split
        · exact h
        · dsimp only
          split
          · intro p hp
            exact h p (List.mem_of_mem_filter hp)
          · intro p hp
            rcases mem_setThread hp with rfl | hp'
            · exact hta
            · exact h p hp'

theorem applyVotes_noTimestamps (cfg : Config) (votes : List Vote) :
    ∀ st : VetState, noTimestamps st → noTimestamps (applyVotes cfg votes st) := by
  induction votes with
  | nil => intro st h; exact h
  | cons v vs ih =>
    intro st h
    exact ih _ (processVote_noTimestamps cfg v.now v.author st v.thread v.status h)

theorem processVote_result_not_windowClosed (cfg : Config) (now : Int)
    (author : Nat) (st : VetState) (t : Nat) (status : Status)
    (h : noTimestamps st) :
    ((processVote cfg now author st t status).1 = VoteResult.windowClosed) = False := by
  apply eq_false
  intro hres
  have hta := get_thread_approvals_time_none h t
  unfold processVote at hres
  dsimp only at hres
  split at hres
  · simp at hres
  · cases status with
    | approved =>
      rw [show (match Status.approved with
          | Status.approved => process_approval cfg now author st t st.member_roles
              (get_thread_approvals st t)
          | Status.rejected => process_rejection cfg now author st t st.member_roles
              (get_thread_approvals st t))
          = process_approval cfg now author st t st.member_roles
              (get_thread_approvals st t) from rfl] at hres
      unfold process_approval at hres
      split at hres
      · simp at hres
      · dsimp only at hres
        split at hres <;> simp at hres
    | rejected =>
      rw [show (match Status.rejected with
          | Status.approved => process_approval cfg now author st t st.member_roles
              (get_thread_approvals st t)
          | Status.rejected => process_rejection cfg now author st t st.member_roles
              (get_thread_approvals st t))
          = process_rejection cfg now author st t st.member_roles
              (get_thread_approvals st t) from rfl] at hres
      unfold process_rejection at hres
      split at hres
      · simp at hres
      · split at hres
        · rename_i hcond
          rw [hta] at hcond
          simp at hcond
        · dsimp only at hres
          split at hres <;> simp at hres

/-- C1 counterexample: with electoral=1, approved=2, temporary=3, a member
holding the approved and temporary roles, and a thread at 2 of the 3 required
approvals: the quorum-reaching approval vote leaves the temporary role 3 in
place and removes the approved role 2 — the code adds only the electoral role
and removes the approved role, it neither adds the approved role nor removes
the temporary role as the claim states. -/
theorem approval_quorum_counterexample :
    (let cfg : Config :=
      { ELECTORAL_ROLE_ID := 1, APPROVED_ROLE_ID := 2, TEMPORARY_ROLE_ID := 3 }
     let st : VetState :=
      { approval_counts := [(100, { approval_count := 2, reviewers := {10, 11} })]
        member_roles := {2, 3} }
     let st2 := (processVote cfg 1000 12 st 100 .approved).2
     st2.member_roles = {1, 3} ∧ 2 ∉ st2.member_roles ∧ 3 ∈ st2.member_roles) := by
  decide

/-- C1 (amended): when a vetting thread's approval count reaches exactly
`REQUIRED_APPROVALS`, processing that vote stamps `last_approval_time = now`
(in the record the approval notification renders), adds the electoral role and
removes the approved role on the member, and deletes the thread's ledger
entry; one additional approval vote on that member afterwards fails with the
already-approved error and changes nothing. -/
theorem process_approval_quorum (cfg : Config) (now : Int) (author : Nat)
    (st : VetState) (t : Nat)
    (h1 : (get_thread_approvals st t).approval_count + 1 = cfg.REQUIRED_APPROVALS)
    (h2 : author ∉ (get_thread_approvals st t).reviewers)
    (h3 : cfg.ELECTORAL_ROLE_ID ∉ st.member_roles) :
    (processVote cfg now author st t .approved).1 =
      .approvedFinal
        { approval_count := cfg.REQUIRED_APPROVALS
          rejection_count := 0
          reviewers := insert author (get_thread_approvals st t).reviewers
          last_approval_time := some now } ∧
    lookupThread (processVote cfg now author st t .approved).2.approval_counts t =
      none ∧
    (processVote cfg now author st t .approved).2.member_roles =
      insert cfg.ELECTORAL_ROLE_ID (st.member_roles.erase cfg.APPROVED_ROLE_ID) ∧
    ∀ (now2 : Int) (author2 : Nat),
      processVote cfg now2 author2 (processVote cfg now author st t .approved).2 t
          .approved =
        (.alreadyApproved, (processVote cfg now author st t .approved).2) := by
  have hstep : processVote cfg now author st t .approved =
      (.approvedFinal
        { approval_count := cfg.REQUIRED_APPROVALS
          rejection_count := 0
          reviewers := insert author (get_thread_approvals st t).reviewers
          last_approval_time := some now },
       { approval_counts := removeThread st.approval_counts t
         member_roles :=
           update_member_roles st.member_roles cfg.ELECTORAL_ROLE_ID
             cfg.APPROVED_ROLE_ID }) := by
    unfold processVote
    dsimp only
    rw [if_neg h2]
    show process_approval cfg now author st t st.member_roles
        (get_thread_approvals st t) = _
    unfold process_approval
    rw [if_neg h3]
    dsimp only
    rw [h1, min_self, if_pos rfl]
  refine ⟨by rw [hstep], by rw [hstep]; exact lookupThread_removeThread _ _,
    by rw [hstep]; rfl, ?_⟩
  intro now2 author2
  rw [hstep]
  have hget : get_thread_approvals
      ({ approval_counts := removeThread st.approval_counts t
         member_roles :=
           update_member_roles st.member_roles cfg.ELECTORAL_ROLE_ID
             cfg.APPROVED_ROLE_ID } : VetState) t = {} := by
    unfold get_thread_approvals
    show (lookupThread (removeThread st.approval_counts t) t).getD {} = {}
    rw [lookupThread_removeThread]
    rfl
  unfold processVote
  dsimp only
  rw [hget]
  rw [if_neg (Finset.not_mem_empty author2)]
  show process_approval cfg now2 author2 _ t _ {} = _
  unfold process_approval
  have hmem : cfg.ELECTORAL_ROLE_ID ∈
      update_member_roles st.member_roles cfg.ELECTORAL_ROLE_ID
        cfg.APPROVED_ROLE_ID :=
    Finset.mem_insert_self _ _
  rw [if_pos hmem]

theorem process_approval_quorum_witness :
    (let cfg : Config := { ELECTORAL_ROLE_ID := 1, APPROVED_ROLE_ID := 2 }
     let st : VetState :=
      { approval_counts := [(100, { approval_count := 2, reviewers := {10, 11} })]
        member_roles := {3} }
     (get_thread_approvals st 100).approval_count + 1 = cfg.REQUIRED_APPROVALS ∧
     lookupThread (processVote cfg 1000 12 st 100 .approved).2.approval_counts 100 =
       none) := by
  exact ⟨by decide,
    (process_approval_quorum
      { ELECTORAL_ROLE_ID := 1, APPROVED_ROLE_ID := 2 } 1000 12
      { approval_counts := [(100, { approval_count := 2, reviewers := {10, 11} })]
        member_roles := {3} }
      100 (by decide) (by decide) (by decide)).2.1⟩

/-- C5: a rejection vote submitted by an eligible reviewer on a member holding
the electoral role, more than `REJECTION_WINDOW_DAYS × 86400` seconds after
the record's set `last_approval_time`, fails with the window-closed error and
leaves the whole state (in particular `rejection_count` and the rest of the
record) unchanged. -/
theorem process_rejection_window_closed (cfg : Config) (now t0 : Int)
    (author : Nat) (st : VetState) (t : Nat)
    (hts : (get_thread_approvals st t).last_approval_time = some t0)
    (hwin : (cfg.REJECTION_WINDOW_DAYS : Int) * 86400 < now - t0)
    (hdup : author ∉ (get_thread_approvals st t).reviewers)
    (hel : cfg.ELECTORAL_ROLE_ID ∈ st.member_roles) :
    processVote cfg now author st t .rejected = (.windowClosed, st) := by
  unfold processVote
  dsimp only
  rw [if_neg hdup]
  show process_rejection cfg now author st t st.member_roles
      (get_thread_approvals st t) = _
  unfold process_rejection
  rw [if_neg (not_not.mpr hel)]
  have hclosed : is_rejection_window_closed cfg now (get_thread_approvals st t) =
      true := by
    unfold is_rejection_window_closed
    rw [hts]
    exact decide_eq_true hwin
  rw [if_pos (by rw [hts, hclosed]; rfl)]

theorem process_rejection_window_closed_witness :
    (let st : VetState :=
      { approval_counts :=
          [(7, { approval_count := 3, reviewers := {10, 11, 12},
                 last_approval_time := some 0 })]
        member_roles := {1200043628899356702} }
     processVote {} 700000 13 st 7 .rejected = (.windowClosed, st)) := by
  exact process_rejection_window_closed {} 700000 0 13 _ 7 (by decide) (by decide)
    (by decide) (by decide)

/-- C7: along every serialized sequence of vote operations the ledger invariant
`approval_count ≤ REQUIRED_APPROVALS ∧ rejection_count ≤ REQUIRED_REJECTIONS`
is preserved for every stored record, and a vote by a reviewer already in the
thread's reviewers set is rejected as a duplicate with the state — counts and
reviewers included — unchanged. -/
theorem vote_counts_invariant (cfg : Config) :
    (∀ st : VetState, countsBounded cfg st →
      ∀ votes : List Vote, countsBounded cfg (applyVotes cfg votes st)) ∧
    ∀ (now : Int) (author : Nat) (st : VetState) (t : Nat) (status : Status),
      author ∈ (get_thread_approvals st t).reviewers →
        processVote cfg now author st t status = (.duplicateVote, st) := by
  constructor
  · intro st h votes
    exact applyVotes_bounded cfg votes st h
  · intro now author st t status hmem
    unfold processVote
    dsimp only
    rw [if_pos hmem]

theorem vote_counts_invariant_witness :
    countsBounded {}
      (applyVotes {} [⟨0, 10, 1, .approved⟩, ⟨1, 11, 1, .approved⟩] {}) ∧
    (let st : VetState := { approval_counts := [(1, { reviewers := {5} })] }
     5 ∈ (get_thread_approvals st 1).reviewers ∧
     processVote {} 0 5 st 1 .rejected = (.duplicateVote, st)) := by
  refine ⟨(vote_counts_invariant {}).1 {} ?_ _, by decide,
    (vote_counts_invariant {}).2 0 5 _ 1 .rejected (by decide)⟩
  intro p hp
  simp at hp

/-- C9: after a quorum deletes a thread's ledger entry, a later read returns
the default `Approval()` whose `last_approval_time` is `None`, for which
`is_rejection_window_closed` is `false`; since no stored record ever carries a
timestamp (the only write of `last_approval_time` is immediately followed by
the deletion), the window-closed error can never fire for any vote placed
after any further sequence of votes, regardless of elapsed time. -/
theorem rejection_window_fresh_record (cfg : Config) (st : VetState)
    (hn : noTimestamps st) :
    (∀ now : Int, is_rejection_window_closed cfg now {} = false) ∧
    (∀ t : Nat, lookupThread st.approval_counts t = none →
      get_thread_approvals st t = {}) ∧
    (∀ t : Nat, (get_thread_approvals st t).last_approval_time = none) ∧
    (∀ votes : List Vote, noTimestamps (applyVotes cfg votes st)) ∧
    ∀ (votes : List Vote) (now : Int) (author : Nat) (t : Nat) (status : Status),
      ((processVote cfg now author (applyVotes cfg votes st) t status).1 =
          VoteResult.windowClosed) = False := by
  refine ⟨fun _ => rfl, fun t ht => ?_, get_thread_approvals_time_none hn,
    fun votes => applyVotes_noTimestamps cfg votes st hn,
    fun votes now author t status => ?_⟩
  · unfold get_thread_approvals
    rw [ht]
    rfl
  · exact processVote_result_not_windowClosed cfg now author _ t status
      (applyVotes_noTimestamps cfg votes st hn)

theorem rejection_window_fresh_record_witness :
    (get_thread_approvals ({} : VetState) 3).last_approval_time = none ∧
    ((processVote {} 999999999 4 (applyVotes {} [⟨0, 9, 3, .rejected⟩] {}) 3
        .rejected).1 = VoteResult.windowClosed) = False := by
  have h := rejection_window_fresh_record {} {} (by intro p hp; simp at hp)
  exact ⟨h.2.2.1 3, h.2.2.2.2 [⟨0, 9, 3, .rejected⟩] 999999999 4 3 .rejected⟩

/-! ## Theorems: entropy check -/

theorem message_entropy_nodup (msg : List Char) (hnd : msg.Nodup) (hne : msg ≠ []) :
    message_entropy msg = Real.logb 2 msg.length := by
  have hn0 : (msg.length : ℝ) ≠ 0 :=
    Nat.cast_ne_zero.mpr (Nat.pos_iff_ne_zero.mp (List.length_pos.mpr hne))
  unfold message_entropy
  rw [List.dedup_eq_self.mpr hnd]
  have hmap : (msg.map fun c =>
      ((msg.count c : ℝ) / (msg.length : ℝ)) *
        Real.logb 2 ((msg.count c : ℝ) / (msg.length : ℝ)))
      = List.replicate msg.length
          ((1 / (msg.length : ℝ)) * Real.logb 2 (1 / (msg.length : ℝ))) := by
    rw [List.eq_replicate_iff]
    refine ⟨by simp, ?_⟩
    intro b hb
    rcases List.mem_map.mp hb with ⟨c, hc, rfl⟩
    rw [List.count_eq_one_of_mem hnd hc]
    norm_num
  rw [hmap, List.sum_replicate, nsmul_eq_mul, one_div, Real.logb_inv]
  field_simp

/-- C8: the entropy check flags a non-empty message exactly when its base-2
Shannon entropy over the character-frequency distribution is below
`max(minMessageEntropy × (0.7 if CJK else 1.0),
     2.0 − (log2(max(length,2))/10) × (0.8 if CJK else 1.0))`;
zero-length messages are never flagged; with the default threshold 1.5 the
message `"aaaaaaaaaa"` (entropy 0) is flagged and a message of 50 distinct
characters is not. -/
theorem entropy_check_spec :
    (∀ e : ℝ, check_entropy e [] = False) ∧
    check_entropy 1.5 ("aaaaaaaaaa".toList) ∧
    (check_entropy 1.5 msg50 = False) ∧
    ∀ (e : ℝ) (msg : List Char),
      check_entropy e msg ↔
        msg ≠ [] ∧ message_entropy msg < entropy_flag_threshold e msg := by
  refine ⟨fun e => eq_false ?_, ?_, eq_false ?_, fun e msg => ?_⟩
  · rintro ⟨h, -⟩
    exact h rfl
  · have hd : ("aaaaaaaaaa".toList).dedup = ['a'] := by decide
    have hc : ("aaaaaaaaaa".toList).count 'a' = 10 := by decide
    have hl : ("aaaaaaaaaa".toList).length = 10 := by decide
    have hchin : is_chinese ("aaaaaaaaaa".toList) = false := by decide
    have hent : message_entropy ("aaaaaaaaaa".toList) = 0 := by
      unfold message_entropy
      rw [hd]
      simp only [List.map_cons, List.map_nil, List.sum_cons, List.sum_nil, hc, hl]
      norm_num [Real.logb_one]
    refine ⟨by simp [hl], ?_⟩
    rw [hent]
    unfold entropy_flag_threshold
    rw [hchin]
    simp only [Bool.false_eq_true, if_false]
    exact lt_of_lt_of_le (by norm_num) (le_max_left _ _)
  · rintro ⟨-, hlt⟩
    have hnd : msg50.Nodup := by decide
    have hne : msg50 ≠ [] := by decide
    have hl : msg50.length = 50 := by decide
    have hchin : is_chinese msg50 = false := by decide
    have hent : message_entropy msg50 = Real.logb 2 50 := by
      rw [message_entropy_nodup msg50 hnd hne, hl]
      norm_num
    have hlog5 : (5 : ℝ) ≤ Real.logb 2 50 := by
      have h32 : Real.logb 2 32 = 5 := by
        rw [show (32 : ℝ) = 2 ^ (5 : ℕ) by norm_num, Real.logb_pow,
          Real.logb_self_eq_one (by norm_num)]
        norm_num
      calc (5 : ℝ) = Real.logb 2 32 := h32.symm
        _ ≤ Real.logb 2 50 :=
          Real.logb_le_logb_of_le (by norm_num) (by norm_num) (by norm_num)
    rw [hent] at hlt
    unfold entropy_flag_threshold at hlt
    rw [hchin, hl] at hlt
    simp only [Bool.false_eq_true, if_false] at hlt
    rw [show max ((50 : ℕ) : ℝ) 2 = 50 by norm_num] at hlt
    have hth : max ((1.5 : ℝ) * 1.0) (2.0 - Real.logb 2 50 / 10 * 1.0) ≤ 5 := by
      apply max_le
      · norm_num
      · nlinarith [hlog5]
    linarith
  · unfold check_entropy
    constructor
    · rintro ⟨h1, h2⟩
      exact ⟨fun hmsg => h1 (by rw [hmsg]; rfl), h2⟩
    · rintro ⟨h1, h2⟩
      exact ⟨fun hlen => h1 (List.length_eq_zero.mp hlen), h2⟩
